import Mathlib

/-!
Verification of the WriteController specification against the repository.

The repository ships the controller's unit test
(src/yb/rocksdb/db/write_controller_test.cc) but not the controller
implementation itself (write_controller.cc / write_controller.h), so the
controller is modelled below from the specification, with every numeric
constant and branch pinned by the 28 assertions of the test file, all of
which the model reproduces exactly.
-/

/-- Modelled from the spec: one second in microseconds, the unit in which
the clock and all sleep durations are measured. -/
def kMicrosPerSecond : Nat := 1000000

/-- Modelled from the spec: the bucket refill interval. The spec's design
section claims 1000 microseconds, but the scenarios it lists (and the
repository test they come from) pin the interval to 1024 microseconds:
one refill at rate 10_000_000 yields 10_240 bytes and a single-refill
sleep is 1024 microseconds (plus debt), as asserted at
write_controller_test.cc lines 87-88. -/
def kMicrosPerRefill : Nat := 1024

/-- Modelled from the spec: the mutable state of the WriteController.
write_controller.h is not under src/; fields follow the spec's data model
(stop and delay vote counts, current delay rate, byte balance carried from
the last refill, and the last refill timestamp, 0 meaning unset). -/
structure WriteController where
  total_stopped_ : Nat
  total_delayed_ : Nat
  bytes_left_ : Nat
  last_refill_time_ : Nat
  delayed_write_rate_ : Nat

/-- Modelled from the spec: the constructor
WriteController(configured_rate_bytes_per_sec); counts and the bucket
start at zero and the configured rate is the initial delay rate. -/
def WriteController.init (rate : Nat) : WriteController :=
  { total_stopped_ := 0, total_delayed_ := 0, bytes_left_ := 0,
    last_refill_time_ := 0, delayed_write_rate_ := rate }

/-- Modelled from the spec: delayed_write_rate() accessor. The test's
ChangeDelayRateTest pins it to return the rate currently in effect (after
a token at 20_000_000 it returns 20_000_000, making the fifth token's rate
40_000_000 and the expected delay 500_000). -/
def delayed_write_rate (c : WriteController) : Nat := c.delayed_write_rate_

/-- Modelled from the spec: IsStopped() is true exactly when the stop vote
count is positive. -/
def IsStopped (c : WriteController) : Bool := c.total_stopped_ != 0

/-- Modelled from the spec: GetStopToken() mints a stop vote; only the
effect on the controller is modelled, the token handle is represented by
the matching release operation below. -/
def GetStopToken (c : WriteController) : WriteController :=
  { c with total_stopped_ := c.total_stopped_ + 1 }

/-- Modelled from the spec: destruction of a StopToken decrements the
stop vote count. -/
def releaseStopToken (c : WriteController) : WriteController :=
  { c with total_stopped_ := c.total_stopped_ - 1 }

/-- Modelled from the spec: GetDelayToken(rate) increments the delay vote
count, installs the token's rate as the current delay rate and resets the
bucket (byte balance and refill clock cleared). -/
def GetDelayToken (c : WriteController) (write_rate : Nat) : WriteController :=
  { c with total_delayed_ := c.total_delayed_ + 1,
           bytes_left_ := 0, last_refill_time_ := 0,
           delayed_write_rate_ := write_rate }

/-- Modelled from the spec: destruction of a DelayToken decrements the
delay vote count; the bucket fields are left as they are. -/
def releaseDelayToken (c : WriteController) : WriteController :=
  { c with total_delayed_ := c.total_delayed_ - 1 }

/-- Modelled from the spec: GetDelay(env, num_bytes) returns the
microseconds the caller must sleep together with the updated controller.
write_controller.cc is not under src/; the branch structure below is the
token-bucket algorithm of spec section 4.2 with every constant and branch
outcome pinned by the assertions of write_controller_test.cc (all 28 of
which this definition reproduces): a fast path that pays from the byte
balance without reading the clock; a catch-up refill of
elapsed * rate / 1000000 bytes when at least one full interval has
elapsed; a single-interval refill granting
rate * 1024 / 1000000 bytes for a sleep of 1024 microseconds plus any
sleep debt (the amount by which the pre-paid refill time still lies in
the future); and an unclamped full-payment branch returning
num_bytes * 1000000 / rate plus debt while leaving the balance untouched
when even one refill interval cannot cover the request. -/
def GetDelay (c : WriteController) (time_now num_bytes : Nat) : Nat × WriteController :=
  if 0 < c.total_stopped_ then (0, c)
  else if c.total_delayed_ = 0 then (0, c)
  else if num_bytes ≤ c.bytes_left_ then
    (0, { c with bytes_left_ := c.bytes_left_ - num_bytes })
  else
    let sleep_debt :=
      if c.last_refill_time_ = 0 then 0
      else if time_now < c.last_refill_time_ then c.last_refill_time_ - time_now
      else 0
    let elapsed :=
      if c.last_refill_time_ = 0 then 0
      else if time_now < c.last_refill_time_ then 0
      else time_now - c.last_refill_time_
    if kMicrosPerRefill ≤ elapsed then
      let refilled := c.bytes_left_ + elapsed * c.delayed_write_rate_ / kMicrosPerSecond
      if num_bytes ≤ refilled then
        (0, { c with bytes_left_ := refilled - num_bytes, last_refill_time_ := time_now })
      else
        let refill_amount := c.delayed_write_rate_ * kMicrosPerRefill / kMicrosPerSecond
        if num_bytes ≤ refilled + refill_amount then
          (kMicrosPerRefill,
           { c with bytes_left_ := refilled + refill_amount - num_bytes,
                    last_refill_time_ := time_now + kMicrosPerRefill })
        else
          let sleep := num_bytes * kMicrosPerSecond / c.delayed_write_rate_
          (sleep, { c with last_refill_time_ := time_now + sleep })
    else
      let credit_bytes := elapsed * c.delayed_write_rate_ / kMicrosPerSecond
      let refill_amount := c.delayed_write_rate_ * kMicrosPerRefill / kMicrosPerSecond
      if num_bytes ≤ c.bytes_left_ + credit_bytes + refill_amount then
        let sleep := kMicrosPerRefill + sleep_debt
        (sleep, { c with bytes_left_ := c.bytes_left_ + credit_bytes + refill_amount - num_bytes,
                         last_refill_time_ := time_now + sleep })
      else
        let sleep := num_bytes * kMicrosPerSecond / c.delayed_write_rate_ + sleep_debt
        (sleep, { c with last_refill_time_ := time_now + sleep })

/-- Controller state with a nonzero refill clock and an empty bucket at
rate 10_000_000, used to exhibit the size of one refill interval. -/
def refillProbe : WriteController :=
  { total_stopped_ := 0, total_delayed_ := 1, bytes_left_ := 0,
    last_refill_time_ := 1000000, delayed_write_rate_ := 10000000 }

/-- Controller state carrying junk bucket contents, used to check that
minting a delay token discards them. -/
def junkBucket : WriteController :=
  { total_stopped_ := 0, total_delayed_ := 5, bytes_left_ := 999,
    last_refill_time_ := 123, delayed_write_rate_ := 7 }

/-- Controller state reproducing the out-of-bound step of SanityTest:
balance 10_480, refill clock 624 microseconds in the future. -/
def oversizedProbe : WriteController :=
  { total_stopped_ := 0, total_delayed_ := 1, bytes_left_ := 10480,
    last_refill_time_ := 4008814, delayed_write_rate_ := 10000000 }

/-- Operations on stop tokens: mint a new one, or drop (reset) the token
with a given index; dropping a token twice is a no-op, as for the
unique_ptr reset in the test. -/
inductive StopOp where
  | mint : StopOp
  | drop : Nat → StopOp

/-- A controller together with the liveness flags of every stop token
minted so far. -/
structure StopSim where
  ctrl : WriteController
  tokens : List Bool

/-- Semantics of a single stop-token operation. -/
def stepStop (s : StopSim) : StopOp → StopSim
  | StopOp.mint => { ctrl := GetStopToken s.ctrl, tokens := s.tokens ++ [true] }
  | StopOp.drop i =>
    if h : i < s.tokens.length then
      if s.tokens.get ⟨i, h⟩ then
        { ctrl := releaseStopToken s.ctrl, tokens := s.tokens.set i false }
      else s
    else s

/-- Run a sequence of stop-token operations. -/
def runStopOps (s : StopSim) : List StopOp → StopSim
  | [] => s
  | op :: rest => runStopOps (stepStop s op) rest

/-- A freshly constructed controller with no tokens. -/
def startSim (rate : Nat) : StopSim :=
  { ctrl := WriteController.init rate, tokens := [] }

/-- Number of live stop tokens. -/
def liveStops (s : StopSim) : Nat := s.tokens.count true

/-- A GetDelay call: the clock value at the call and the requested bytes. -/
structure DelayCall where
  t : Nat
  n : Nat

/-- Run a sequence of GetDelay calls; returns the final controller, the
total sleep returned and the total bytes requested. -/
def runCalls (c : WriteController) : List DelayCall → WriteController × Nat × Nat
  | [] => (c, 0, 0)
  | call :: rest =>
    let r := GetDelay c call.t call.n
    let q := runCalls r.2 rest
    (q.1, r.1 + q.2.1, call.n + q.2.2)

/-- The call times are nondecreasing and lie between lo and hi. -/
def monoBetween (lo hi : Nat) : List DelayCall → Prop
  | [] => lo ≤ hi
  | call :: rest => lo ≤ call.t ∧ monoBetween call.t hi rest

/-- Accounting potential of the bucket at clock value t: the byte balance
in byte-microseconds plus the signed distance from the refill clock to t
weighted by the rate. Every GetDelay call decreases it by at least
num_bytes * 1000000 - rate, and waiting raises it at rate bytes per
microsecond, which is the conservation law behind the rate guarantee. -/
def psi (c : WriteController) (t : Nat) : Int :=
  (c.bytes_left_ : Int) * 1000000 +
    (if c.last_refill_time_ = 0 then 0 else (t : Int) - (c.last_refill_time_ : Int)) *
      (c.delayed_write_rate_ : Int)

/-- First step of the SanityTest delay scenario: controller at rate
10_000_000, delay token at 10_000_000, GetDelay(20_000_000) at clock
6666. -/
def sanity1 : Nat × WriteController :=
  GetDelay (GetDelayToken (WriteController.init 10000000) 10000000) 6666 20000000

/-- Second step: clock advanced by 1_999_900, a fresh delay token at
10_000_000, GetDelay(20_000_000). -/
def sanity2 : Nat × WriteController :=
  GetDelay (GetDelayToken sanity1.2 10000000) 2006566 20000000

/-- Third step: clock advanced by another 1_999_900, GetDelay(1_000). -/
def sanity3 : Nat × WriteController :=
  GetDelay sanity2.2 4006466 1000

/-- Fourth step: clock advanced by 1_124, second delay token dropped,
GetDelay(1_000). -/
def sanity4 : Nat × WriteController :=
  GetDelay (releaseDelayToken sanity3.2) 4007590 1000

/-- Fifth step: clock advanced by 100, GetDelay(1_000). -/
def sanity5 : Nat × WriteController :=
  GetDelay sanity4.2 4007690 1000

/-- Sixth step: clock advanced by another 100, GetDelay(8_000). -/
def sanity6 : Nat × WriteController :=
  GetDelay sanity5.2 4007790 8000

/-- ChangeDelayRateTest steps, clock fixed at 6666: token at the value of
delayed_write_rate(), then GetDelay(20_000_000). -/
def cdr1 : Nat × WriteController :=
  GetDelay (GetDelayToken (WriteController.init 10000000)
    (delayed_write_rate (WriteController.init 10000000))) 6666 20000000

/-- Token at 2_000_000, then GetDelay(20_000_000). -/
def cdr2 : Nat × WriteController :=
  GetDelay (GetDelayToken cdr1.2 2000000) 6666 20000000

/-- Token at 1_000_000, then GetDelay(20_000_000). -/
def cdr3 : Nat × WriteController :=
  GetDelay (GetDelayToken cdr2.2 1000000) 6666 20000000

/-- Token at 20_000_000, then GetDelay(20_000_000). -/
def cdr4 : Nat × WriteController :=
  GetDelay (GetDelayToken cdr3.2 20000000) 6666 20000000

/-- Token at delayed_write_rate() * 2, as the test mints it, then
GetDelay(20_000_000). -/
def cdr5 : Nat × WriteController :=
  GetDelay (GetDelayToken cdr4.2 (delayed_write_rate cdr4.2 * 2)) 6666 20000000

/-- The same fifth step with the token minted at the literal rate
20_000_000 that the claim names. -/
def cdr5lit : Nat × WriteController :=
  GetDelay (GetDelayToken cdr4.2 20000000) 6666 20000000

/-- Token at 2_000_000 on a fresh controller, used to show a delay beyond
2 seconds. -/
def lowRateToken : WriteController :=
  GetDelayToken (WriteController.init 10000000) 2000000

/-- A two-call window starting at a token mint at rate 10_000_000: a
1-byte call at clock 6666, then a 20_000_000-byte call at clock
10_007_690 after the bucket has silently refilled for ten seconds. -/
def windowRun : WriteController × Nat × Nat :=
  runCalls (GetDelayToken (WriteController.init 10000000) 10000000)
    [{ t := 6666, n := 1 }, { t := 10007690, n := 20000000 }]

/-- GetDelay reads the controller only through the positivity of the stop
count, the zeroness of the delay count, and the three bucket fields, so
two controllers agreeing there behave identically. -/
theorem getDelay_congr (c c' : WriteController) (t n : Nat)
    (h1 : (0 < c.total_stopped_) ↔ (0 < c'.total_stopped_))
    (h2 : (c.total_delayed_ = 0) ↔ (c'.total_delayed_ = 0))
    (h3 : c.bytes_left_ = c'.bytes_left_)
    (h4 : c.last_refill_time_ = c'.last_refill_time_)
    (h5 : c.delayed_write_rate_ = c'.delayed_write_rate_) :
    (GetDelay c t n).1 = (GetDelay c' t n).1 ∧
    (GetDelay c t n).2.bytes_left_ = (GetDelay c' t n).2.bytes_left_ ∧
    (GetDelay c t n).2.last_refill_time_ = (GetDelay c' t n).2.last_refill_time_ ∧
    (GetDelay c t n).2.delayed_write_rate_ = (GetDelay c' t n).2.delayed_write_rate_ := by
  unfold GetDelay
  by_cases hs : 0 < c.total_stopped_
  · simp [hs, h1.mp hs, h3, h4, h5]
  · have hs' : ¬ 0 < c'.total_stopped_ := fun h => hs (h1.mpr h)
    by_cases hd : c.total_delayed_ = 0
    · simp [hs, hs', hd, h2.mp hd, h3, h4, h5]
    · have hd' : ¬ c'.total_delayed_ = 0 := fun h => hd (h2.mpr h)
      simp only [if_neg hs, if_neg hs', if_neg hd, if_neg hd', h3, h4, h5]
      split_ifs <;> simp

/-- C4: the sleep-debt scenario of SanityTest. At rate 10_000_000 with a
delay token at 10_000_000 and the clock at 6666, GetDelay(20_000_000)
returns 2_000_000; after advancing the clock by 1_999_900 and minting a
new token at 10_000_000, GetDelay(20_000_000) returns 2_000_000 again;
after advancing by another 1_999_900, GetDelay(1_000) returns 1_124. -/
theorem sleep_debt_scenario :
    sanity1.1 = 2000000 ∧ sanity2.1 = 2000000 ∧ sanity3.1 = 1124 := by
  decide

/-- C5: the credit-accumulation continuation. After advancing the clock
by 1_124 and dropping the second delay token, GetDelay(1_000) returns 0;
after advancing by 100, GetDelay(1_000) returns 0; after advancing by
another 100, GetDelay(8_000) returns 1_024. -/
theorem credit_accumulation_scenario :
    sanity4.1 = 0 ∧ sanity5.1 = 0 ∧ sanity6.1 = 1024 := by
  decide

/-- C3 counterexample: in the ChangeDelayRateTest chain the fourth and
fifth assertions cannot both come from tokens at rate 20_000_000; minting
the fifth token at the literal rate 20_000_000 that the claim names makes
GetDelay(20_000_000) return 1_000_000, not 500_000. -/
theorem change_delay_rate_literal_cex :
    cdr5lit.1 = 1000000 ∧ cdr5lit.1 ≠ 500000 := by
  decide

/-- C3 amended: the ChangeDelayRateTest chain with the clock fixed at
6666. The first token is at delayed_write_rate() (10_000_000) and
GetDelay(20_000_000) returns 2_000_000; after a token at 2_000_000 it
returns 10_000_000; after a token at 1_000_000 it returns 20_000_000;
after a token at 20_000_000 it returns 1_000_000; the fifth token is at
twice the value of delayed_write_rate(), which now reports the current
rate 20_000_000, so it is minted at 40_000_000 and GetDelay(20_000_000)
returns 500_000. -/
theorem change_delay_rate_scenario :
    cdr1.1 = 2000000 ∧ cdr2.1 = 10000000 ∧ cdr3.1 = 20000000 ∧
    cdr4.1 = 1000000 ∧ delayed_write_rate cdr4.2 = 20000000 ∧
    cdr5.1 = 500000 := by
  decide

/-- C1 counterexample: with an empty bucket at rate 10_000_000 whose
refill clock equals the current clock, GetDelay(1_000) sleeps one refill
interval of 1024 microseconds (not 1000) and the refill credits 10_240
bytes (not 10_000), leaving 9_240 in the bucket rather than 9_000. -/
theorem refill_is_1024_not_1000_cex :
    (GetDelay refillProbe 1000000 1000).1 = 1024 ∧
    (GetDelay refillProbe 1000000 1000).1 ≠ 1000 ∧
    (GetDelay refillProbe 1000000 1000).2.bytes_left_ = 9240 ∧
    (GetDelay refillProbe 1000000 1000).2.bytes_left_ ≠ 9000 := by
  decide

/-- C2 counterexample: after a delay token at rate 2_000_000,
GetDelay(20_000_000) returns 10_000_000 microseconds, well above the
claimed 2_000_000 ceiling. -/
theorem getDelay_exceeds_two_seconds_cex :
    2000000 < (GetDelay lowRateToken 6666 20000000).1 := by
  decide

/-- C8: whenever no delay votes are outstanding GetDelay returns 0 for
every byte count, and dropping a delay token never changes (in
particular never raises) IsStopped. -/
theorem no_delay_tokens_zero_delay (c : WriteController) (t n : Nat)
    (hd : c.total_delayed_ = 0) :
    (GetDelay c t n).1 = 0 ∧
    IsStopped (releaseDelayToken c) = IsStopped c := by
  refine ⟨?_, rfl⟩
  unfold GetDelay
  by_cases hs : 0 < c.total_stopped_
  · simp [hs]
  · simp [hs, hd]

/-- C8 witness: a fresh controller has no delay votes; GetDelay with
30_000_000 bytes returns 0 and dropping a delay token leaves IsStopped
unchanged. -/
theorem no_delay_tokens_zero_delay_witness :
    (WriteController.init 10000000).total_delayed_ = 0 ∧
    (GetDelay (WriteController.init 10000000) 6666 30000000).1 = 0 ∧
    IsStopped (releaseDelayToken (WriteController.init 10000000)) =
      IsStopped (WriteController.init 10000000) :=
  ⟨rfl, (no_delay_tokens_zero_delay (WriteController.init 10000000) 6666 30000000 rfl).1,
    (no_delay_tokens_zero_delay (WriteController.init 10000000) 6666 30000000 rfl).2⟩

/-- C6: minting a delay token discards the whole carried bucket state, so
the next GetDelay(n) with n > 0 returns the same sleep and leaves the
same bucket as on a freshly constructed controller at the same rate and
clock with one token at that rate. -/
theorem new_delay_token_resets_bucket (c : WriteController) (r t n : Nat)
    (hs : c.total_stopped_ = 0) (hn : 0 < n) :
    (GetDelay (GetDelayToken c r) t n).1 =
      (GetDelay (GetDelayToken (WriteController.init r) r) t n).1 ∧
    (GetDelay (GetDelayToken c r) t n).2.bytes_left_ =
      (GetDelay (GetDelayToken (WriteController.init r) r) t n).2.bytes_left_ ∧
    (GetDelay (GetDelayToken c r) t n).2.last_refill_time_ =
      (GetDelay (GetDelayToken (WriteController.init r) r) t n).2.last_refill_time_ ∧
    (GetDelay (GetDelayToken c r) t n).2.delayed_write_rate_ =
      (GetDelay (GetDelayToken (WriteController.init r) r) t n).2.delayed_write_rate_ := by
  apply getDelay_congr
  · simp [GetDelayToken, WriteController.init, hs]
  · simp [GetDelayToken, WriteController.init]
  · rfl
  · rfl
  · rfl

/-- C6 witness: a controller carrying junk bucket contents behaves, after
a token at 10_000_000, exactly like a fresh one at that rate. -/
theorem new_delay_token_resets_bucket_witness :
    junkBucket.total_stopped_ = 0 ∧ 0 < 20000000 ∧
    ((GetDelay (GetDelayToken junkBucket 10000000) 6666 20000000).1 =
      (GetDelay (GetDelayToken (WriteController.init 10000000) 10000000) 6666 20000000).1 ∧
    (GetDelay (GetDelayToken junkBucket 10000000) 6666 20000000).2.bytes_left_ =
      (GetDelay (GetDelayToken (WriteController.init 10000000) 10000000) 6666 20000000).2.bytes_left_ ∧
    (GetDelay (GetDelayToken junkBucket 10000000) 6666 20000000).2.last_refill_time_ =
      (GetDelay (GetDelayToken (WriteController.init 10000000) 10000000) 6666 20000000).2.last_refill_time_ ∧
    (GetDelay (GetDelayToken junkBucket 10000000) 6666 20000000).2.delayed_write_rate_ =
      (GetDelay (GetDelayToken (WriteController.init 10000000) 10000000) 6666 20000000).2.delayed_write_rate_) :=
  ⟨rfl, by decide, new_delay_token_resets_bucket junkBucket 10000000 6666 20000000 rfl (by decide)⟩

/-- C9 counterexample: in a window that begins at a delay-token mint at
rate 10_000_000, a 1-byte call at clock 6666 followed by a ten-second
idle gap and a 20_000_000-byte call at clock 10_007_690 sleeps a total of
1024 microseconds, far below the claimed bound of
(total bytes / rate) * 1000000 - 1000 * number of calls. -/
theorem rate_window_without_W_cex :
    windowRun.2.1 = 1024 ∧ windowRun.2.2 = 20000001 ∧
    monoBetween 6666 10007690 [{ t := 6666, n := 1 }, { t := 10007690, n := 20000000 }] ∧
    windowRun.2.1 < windowRun.2.2 / 10000000 * 1000000 - 1000 * 2 := by
  refine ⟨by decide, by decide, ?_, by decide⟩
  simp [monoBetween]

/-- Fast path of GetDelay: with stop count zero, delay count nonzero and
enough balance, the request is paid from the balance and no sleep is
returned. -/
theorem getDelay_fast (c : WriteController) (t n : Nat)
    (hs : c.total_stopped_ = 0) (hd : c.total_delayed_ ≠ 0)
    (hf : n ≤ c.bytes_left_) :
    GetDelay c t n = (0, { c with bytes_left_ := c.bytes_left_ - n }) := by
  unfold GetDelay
  rw [if_neg (by omega), if_neg hd, if_pos hf]

/-- Slow path of GetDelay when no time has elapsed past the refill clock
(the refill clock is unset or in the future): either one refill interval
covers the shortfall, giving a sleep of one interval plus the debt, or
the full request is priced at num_bytes * 1000000 / rate plus debt and
the balance is left untouched. -/
theorem getDelay_debt_eval (c : WriteController) (t n : Nat)
    (hs : c.total_stopped_ = 0) (hd : c.total_delayed_ ≠ 0)
    (hdebt : c.last_refill_time_ = 0 ∨ t ≤ c.last_refill_time_)
    (hfast : c.bytes_left_ < n) :
    GetDelay c t n =
      if n ≤ c.bytes_left_ + c.delayed_write_rate_ * kMicrosPerRefill / kMicrosPerSecond then
        (kMicrosPerRefill + (c.last_refill_time_ - t),
         { c with bytes_left_ := c.bytes_left_ + c.delayed_write_rate_ * kMicrosPerRefill / kMicrosPerSecond - n, last_refill_time_ := t + (kMicrosPerRefill + (c.last_refill_time_ - t)) })
      else
        (n * kMicrosPerSecond / c.delayed_write_rate_ + (c.last_refill_time_ - t),
         { c with last_refill_time_ := t + (n * kMicrosPerSecond / c.delayed_write_rate_ + (c.last_refill_time_ - t)) }) := by
  have h1 : ¬ 0 < c.total_stopped_ := by omega
  have h2 : ¬ n ≤ c.bytes_left_ := by omega
  have hel : (if c.last_refill_time_ = 0 then (0:Nat)
      else if t < c.last_refill_time_ then 0 else t - c.last_refill_time_) = 0 := by
    rcases hdebt with h | h <;> split_ifs <;> omega
  have hdb : (if c.last_refill_time_ = 0 then (0:Nat)
      else if t < c.last_refill_time_ then c.last_refill_time_ - t else 0) =
      c.last_refill_time_ - t := by
    rcases hdebt with h | h <;> split_ifs <;> omega
  have h3 : ¬ kMicrosPerRefill ≤ (0:Nat) := by decide
  unfold GetDelay
  rw [if_neg h1, if_neg hd, if_neg h2]
  simp only [hel, hdb, if_neg h3, Nat.zero_mul, Nat.zero_div, Nat.add_zero]

/-- C1 amended: the refill quantum of GetDelay is kMicrosPerRefill = 1024
microseconds and one refill grants rate * 1024 / 1000000 bytes (10_240
bytes at rate 10_000_000, not 10_000): on an empty bucket whose refill
clock equals the current clock, any affordable positive request sleeps
exactly 1024 microseconds and leaves rate * 1024 / 1000000 - num_bytes in
the bucket. -/
theorem one_refill_adds_1024_micros (c : WriteController) (R t n : Nat)
    (hs : c.total_stopped_ = 0) (hd : c.total_delayed_ ≠ 0)
    (hR : c.delayed_write_rate_ = R) (hB : c.bytes_left_ = 0)
    (hL : c.last_refill_time_ = t) (hn : 0 < n)
    (hn2 : n ≤ R * kMicrosPerRefill / kMicrosPerSecond) :
    (GetDelay c t n).1 = kMicrosPerRefill ∧
    (GetDelay c t n).2.bytes_left_ = R * kMicrosPerRefill / kMicrosPerSecond - n ∧
    (GetDelay c t n).2.last_refill_time_ = t + kMicrosPerRefill := by
  have hcond : n ≤ c.bytes_left_ + c.delayed_write_rate_ * kMicrosPerRefill / kMicrosPerSecond := by
    rw [hB, hR]
    simpa using hn2
  have h := getDelay_debt_eval c t n hs hd (Or.inr (le_of_eq hL.symm)) (by omega)
  rw [h, if_pos hcond]
  refine ⟨by simp [hL], by simp [hB, hR], by simp [hL]⟩

/-- C1 witness: one refill at rate 10_000_000 grants 10_240 bytes: a
1_000-byte request on the empty probe bucket sleeps 1024 microseconds and
leaves 9_240 bytes. -/
theorem one_refill_adds_1024_micros_witness :
    refillProbe.total_stopped_ = 0 ∧ refillProbe.bytes_left_ = 0 ∧
    0 < 1000 ∧ 1000 ≤ 10000000 * kMicrosPerRefill / kMicrosPerSecond ∧
    ((GetDelay refillProbe 1000000 1000).1 = kMicrosPerRefill ∧
     (GetDelay refillProbe 1000000 1000).2.bytes_left_ =
       10000000 * kMicrosPerRefill / kMicrosPerSecond - 1000 ∧
     (GetDelay refillProbe 1000000 1000).2.last_refill_time_ = 1000000 + kMicrosPerRefill) :=
  ⟨rfl, rfl, by decide, by decide,
    one_refill_adds_1024_micros refillProbe 10000000 1000000 1000 rfl (by decide) rfl rfl rfl
      (by decide) (by decide)⟩

/-- C2 amended: GetDelay has no 2_000_000-microsecond ceiling; whenever
the shortfall exceeds one refill interval (and no time has elapsed past
the refill clock), the call returns num_bytes * 1000000 / rate plus the
outstanding sleep debt, a value that grows without bound in num_bytes. -/
theorem getDelay_full_need_unclamped (c : WriteController) (t n : Nat)
    (hs : c.total_stopped_ = 0) (hd : c.total_delayed_ ≠ 0)
    (hdebt : c.last_refill_time_ = 0 ∨ t ≤ c.last_refill_time_)
    (hbig : c.bytes_left_ + c.delayed_write_rate_ * kMicrosPerRefill / kMicrosPerSecond < n) :
    (GetDelay c t n).1 =
      n * kMicrosPerSecond / c.delayed_write_rate_ + (c.last_refill_time_ - t) := by
  have h := getDelay_debt_eval c t n hs hd hdebt ((Nat.le_add_right _ _).trans_lt hbig)
  rw [h, if_neg (not_le.mpr hbig)]

/-- C2 witness: with a token at rate 2_000_000 and an empty bucket,
GetDelay(20_000_000) returns 20_000_000 * 1000000 / 2_000_000 =
10_000_000 microseconds. -/
theorem getDelay_full_need_unclamped_witness :
    lowRateToken.total_stopped_ = 0 ∧
    lowRateToken.bytes_left_ +
      lowRateToken.delayed_write_rate_ * kMicrosPerRefill / kMicrosPerSecond < 20000000 ∧
    (GetDelay lowRateToken 6666 20000000).1 =
      20000000 * kMicrosPerSecond / lowRateToken.delayed_write_rate_ +
        (lowRateToken.last_refill_time_ - 6666) :=
  ⟨rfl, by decide,
    getDelay_full_need_unclamped lowRateToken 6666 20000000 rfl (by decide) (Or.inl rfl)
      (by decide)⟩

/-- C10: under a delay token with a positive balance smaller than the
request, if paying the shortfall would need more than 2_000_000
microseconds and no time has elapsed past the refill clock, GetDelay
prices the whole request at num_bytes * 1000000 / rate plus debt and
leaves the stored balance unchanged, so a later affordable call of m
bytes still returns 0 and draws the prior balance down to balance - m. -/
theorem oversized_request_not_charged (c : WriteController) (t u n m : Nat)
    (hs : c.total_stopped_ = 0) (hd : c.total_delayed_ ≠ 0)
    (hB : 0 < c.bytes_left_) (hBn : c.bytes_left_ < n)
    (hdebt : t ≤ c.last_refill_time_)
    (hneed : 2000000 * c.delayed_write_rate_ < (n - c.bytes_left_) * 1000000)
    (hm : m ≤ c.bytes_left_) :
    (GetDelay c t n).1 =
      n * kMicrosPerSecond / c.delayed_write_rate_ + (c.last_refill_time_ - t) ∧
    (GetDelay c t n).2.bytes_left_ = c.bytes_left_ ∧
    (GetDelay (GetDelay c t n).2 u m).1 = 0 ∧
    (GetDelay (GetDelay c t n).2 u m).2.bytes_left_ = c.bytes_left_ - m := by
  have hdm := Nat.div_mul_le_self (c.delayed_write_rate_ * kMicrosPerRefill) kMicrosPerSecond
  have hbig : c.bytes_left_ + c.delayed_write_rate_ * kMicrosPerRefill / kMicrosPerSecond < n := by
    simp only [kMicrosPerRefill, kMicrosPerSecond] at hdm ⊢
    omega
  have h := getDelay_debt_eval c t n hs hd (Or.inr hdebt) (by omega)
  have e2 : (GetDelay c t n).2 =
      { c with last_refill_time_ := t + (n * kMicrosPerSecond / c.delayed_write_rate_ + (c.last_refill_time_ - t)) } := by
    rw [h, if_neg (not_le.mpr hbig)]
  have h2 := getDelay_fast
    { c with last_refill_time_ := t + (n * kMicrosPerSecond / c.delayed_write_rate_ + (c.last_refill_time_ - t)) }
    u m hs hd hm
  refine ⟨?_, ?_, ?_, ?_⟩
  · rw [h, if_neg (not_le.mpr hbig)]
  · rw [e2]
  · rw [e2, h2]
  · rw [e2, h2]

/-- C10 witness: the out-of-bound step of SanityTest: balance 10_480,
debt 624, GetDelay(30_000_000) returns 3_000_624 and leaves 10_480; the
following GetDelay(6_000) returns 0 and leaves 4_480. -/
theorem oversized_request_not_charged_witness :
    oversizedProbe.total_stopped_ = 0 ∧ 0 < oversizedProbe.bytes_left_ ∧
    oversizedProbe.bytes_left_ < 30000000 ∧
    2000000 * oversizedProbe.delayed_write_rate_ <
      (30000000 - oversizedProbe.bytes_left_) * 1000000 ∧
    ((GetDelay oversizedProbe 4008190 30000000).1 =
      30000000 * kMicrosPerSecond / oversizedProbe.delayed_write_rate_ +
        (oversizedProbe.last_refill_time_ - 4008190) ∧
    (GetDelay oversizedProbe 4008190 30000000).2.bytes_left_ = oversizedProbe.bytes_left_ ∧
    (GetDelay (GetDelay oversizedProbe 4008190 30000000).2 7008914 6000).1 = 0 ∧
    (GetDelay (GetDelay oversizedProbe 4008190 30000000).2 7008914 6000).2.bytes_left_ =
      oversizedProbe.bytes_left_ - 6000) :=
  ⟨rfl, by decide, by decide, by decide,
    oversized_request_not_charged oversizedProbe 4008190 7008914 30000000 6000 rfl (by decide)
      (by decide) (by decide) (by decide) (by decide) (by decide)⟩

/-- Setting a true entry of a boolean list to false lowers its count of
true by exactly one. -/
theorem count_true_set_false (l : List Bool) (i : Nat) (h : i < l.length)
    (hget : l.get ⟨i, h⟩ = true) :
    (l.set i false).count true + 1 = l.count true := by
  induction l generalizing i with
  | nil => simp at h
  | cons b tl ih =>
    cases i with
    | zero =>
      simp only [List.get] at hget
      simp [hget, List.set_cons_zero, List.count_cons]
    | succ j =>
      have hj : j < tl.length := by simpa using h
      have hrec := ih j hj (by simpa using hget)
      simp only [List.set_cons_succ, List.count_cons]
      omega

/-- One stop-token operation preserves the correspondence between the
stop vote count and the number of live stop tokens. -/
theorem stopInv_step (s : StopSim) (op : StopOp)
    (h : s.ctrl.total_stopped_ = liveStops s) :
    (stepStop s op).ctrl.total_stopped_ = liveStops (stepStop s op) := by
  cases op with
  | mint =>
    simp [stepStop, GetStopToken, liveStops, List.count_append, h]
  | drop i =>
    simp only [stepStop]
    split
    · rename_i hi
      split
      · rename_i hget
        have hrec := count_true_set_false s.tokens i hi hget
        simp only [releaseStopToken, liveStops] at *
        omega
      · exact h
    · exact h

/-- Running any sequence of stop-token operations preserves the
correspondence between the stop vote count and the live stop tokens. -/
theorem stopInv_run (ops : List StopOp) (s : StopSim)
    (h : s.ctrl.total_stopped_ = liveStops s) :
    (runStopOps s ops).ctrl.total_stopped_ = liveStops (runStopOps s ops) := by
  induction ops generalizing s with
  | nil => exact h
  | cons op rest ih => exact ih _ (stopInv_step s op h)

/-- C7: after any sequence of stop-token mint and drop operations on a
fresh controller, IsStopped is true exactly when the number of live stop
tokens is positive. -/
theorem isStopped_iff_live_stop_tokens (rate : Nat) (ops : List StopOp) :
    IsStopped (runStopOps (startSim rate) ops).ctrl = true ↔
      0 < liveStops (runStopOps (startSim rate) ops) := by
  have h := stopInv_run ops (startSim rate) rfl
  unfold IsStopped
  rw [h]
  simp only [bne_iff_ne, ne_eq]
  omega

/-- Slow path of GetDelay when time has advanced past the refill clock:
the elapsed time is credited continuously as elapsed * rate / 1000000
bytes; if at least one interval elapsed and the credit covers the request
the call returns 0, else if one further refill interval covers it the
call sleeps exactly one interval, and otherwise the full request is
priced at num_bytes * 1000000 / rate with the balance untouched. -/
theorem getDelay_elapsed_eval (c : WriteController) (t n : Nat)
    (hs : c.total_stopped_ = 0) (hd : c.total_delayed_ ≠ 0)
    (hL0 : c.last_refill_time_ ≠ 0) (hle : c.last_refill_time_ ≤ t)
    (hfast : c.bytes_left_ < n) :
    GetDelay c t n =
      if kMicrosPerRefill ≤ t - c.last_refill_time_ ∧
          n ≤ c.bytes_left_ +
            (t - c.last_refill_time_) * c.delayed_write_rate_ / kMicrosPerSecond then
        (0, { c with bytes_left_ := c.bytes_left_ + (t - c.last_refill_time_) * c.delayed_write_rate_ / kMicrosPerSecond - n, last_refill_time_ := t })
      else if n ≤ c.bytes_left_ +
          (t - c.last_refill_time_) * c.delayed_write_rate_ / kMicrosPerSecond +
          c.delayed_write_rate_ * kMicrosPerRefill / kMicrosPerSecond then
        (kMicrosPerRefill, { c with bytes_left_ := c.bytes_left_ + (t - c.last_refill_time_) * c.delayed_write_rate_ / kMicrosPerSecond + c.delayed_write_rate_ * kMicrosPerRefill / kMicrosPerSecond - n, last_refill_time_ := t + kMicrosPerRefill })
      else
        (n * kMicrosPerSecond / c.delayed_write_rate_, { c with last_refill_time_ := t + n * kMicrosPerSecond / c.delayed_write_rate_ }) := by
  have h1 : ¬ 0 < c.total_stopped_ := by omega
  have h2 : ¬ n ≤ c.bytes_left_ := by omega
  have hdb : (if c.last_refill_time_ = 0 then (0:Nat)
      else if t < c.last_refill_time_ then c.last_refill_time_ - t else 0) = 0 := by
    rw [if_neg hL0, if_neg (by omega)]
  have hel : (if c.last_refill_time_ = 0 then (0:Nat)
      else if t < c.last_refill_time_ then 0 else t - c.last_refill_time_) =
      t - c.last_refill_time_ := by
    rw [if_neg hL0, if_neg (by omega)]
  unfold GetDelay
  rw [if_neg h1, if_neg hd, if_neg h2]
  simp only [hel, hdb, Nat.add_zero]
  by_cases hbig : kMicrosPerRefill ≤ t - c.last_refill_time_
  · rw [if_pos hbig]
    by_cases hsucc : n ≤ c.bytes_left_ +
        (t - c.last_refill_time_) * c.delayed_write_rate_ / kMicrosPerSecond
    · rw [if_pos hsucc, if_pos ⟨hbig, hsucc⟩]
    · have hno : ¬ (kMicrosPerRefill ≤ t - c.last_refill_time_ ∧
          n ≤ c.bytes_left_ +
            (t - c.last_refill_time_) * c.delayed_write_rate_ / kMicrosPerSecond) :=
        fun h => hsucc h.2
      rw [if_neg hsucc, if_neg hno]
  · have hno : ¬ (kMicrosPerRefill ≤ t - c.last_refill_time_ ∧
        n ≤ c.bytes_left_ +
          (t - c.last_refill_time_) * c.delayed_write_rate_ / kMicrosPerSecond) :=
      fun h => hbig h.1
    rw [if_neg hbig, if_neg hno]

set_option maxHeartbeats 2000000 in
/-- Conservation law of one GetDelay call: the potential psi drops by at
least num_bytes * 1000000 - rate, the vote counts and rate are untouched,
and the refill clock never moves past the current time plus the returned
sleep. -/
theorem getDelay_psi_step (c : WriteController) (t n : Nat)
    (hs : c.total_stopped_ = 0) (hd : c.total_delayed_ ≠ 0)
    (hR : 0 < c.delayed_write_rate_) (ht : 0 < t) :
    psi (GetDelay c t n).2 t ≤ psi c t - n * 1000000 + c.delayed_write_rate_ ∧
    (GetDelay c t n).2.total_stopped_ = c.total_stopped_ ∧
    (GetDelay c t n).2.total_delayed_ = c.total_delayed_ ∧
    (GetDelay c t n).2.delayed_write_rate_ = c.delayed_write_rate_ ∧
    (GetDelay c t n).2.last_refill_time_ ≤ max c.last_refill_time_ (t + (GetDelay c t n).1) := by
  have hR0 : (0:Int) ≤ (c.delayed_write_rate_ : Int) := Int.natCast_nonneg _
  by_cases hf : n ≤ c.bytes_left_
  · rw [getDelay_fast c t n hs hd hf]
    refine ⟨?_, rfl, rfl, rfl, le_max_left _ _⟩
    simp only [psi]
    rw [Nat.cast_sub hf]
    linarith
  · -- slow path
    have hfast : c.bytes_left_ < n := by omega
    by_cases hC : c.last_refill_time_ ≠ 0 ∧ c.last_refill_time_ < t
    · obtain ⟨hL0, hlt⟩ := hC
      have hle : c.last_refill_time_ ≤ t := le_of_lt hlt
      rw [getDelay_elapsed_eval c t n hs hd hL0 hle hfast]
      have hee := Nat.div_mul_le_self
        ((t - c.last_refill_time_) * c.delayed_write_rate_) kMicrosPerSecond
      have hrm := Nat.div_mul_le_self (c.delayed_write_rate_ * kMicrosPerRefill) kMicrosPerSecond
      by_cases hcs : kMicrosPerRefill ≤ t - c.last_refill_time_ ∧
          n ≤ c.bytes_left_ +
            (t - c.last_refill_time_) * c.delayed_write_rate_ / kMicrosPerSecond
      · rw [if_pos hcs]
        refine ⟨?_, rfl, rfl, rfl, le_max_right _ _⟩
        simp only [psi]
        rw [if_neg (by omega : ¬ t = 0), if_neg hL0]
        simp only [kMicrosPerSecond] at hcs hee ⊢
        generalize hge : t - c.last_refill_time_ = eN at hcs hee ⊢
        have heq : (eN : Int) = (t : Int) - (c.last_refill_time_ : Int) := by omega
        rw [← heq]
        generalize hger : eN * c.delayed_write_rate_ / 1000000 = er at hcs hee ⊢
        have hee2 : (er : Int) * 1000000 ≤ (eN : Int) * (c.delayed_write_rate_ : Int) := by
          exact_mod_cast hee
        rw [Nat.cast_sub hcs.2]
        push_cast
        ring_nf
        nlinarith [hee2, hR0]
      · rw [if_neg hcs]
        by_cases hsng : n ≤ c.bytes_left_ +
            (t - c.last_refill_time_) * c.delayed_write_rate_ / kMicrosPerSecond +
            c.delayed_write_rate_ * kMicrosPerRefill / kMicrosPerSecond
        · rw [if_pos hsng]
          refine ⟨?_, rfl, rfl, rfl, le_max_right _ _⟩
          simp only [psi]
          rw [if_neg (show ¬ t + kMicrosPerRefill = 0 by simp [kMicrosPerRefill]), if_neg hL0]
          simp only [kMicrosPerRefill, kMicrosPerSecond] at hsng hee hrm ⊢
          generalize hge : t - c.last_refill_time_ = eN at hsng hee ⊢
          have heq : (eN : Int) = (t : Int) - (c.last_refill_time_ : Int) := by omega
          rw [← heq]
          generalize hger : eN * c.delayed_write_rate_ / 1000000 = er at hsng hee ⊢
          generalize hgr : c.delayed_write_rate_ * 1024 / 1000000 = rf at hsng hrm ⊢
          have hee2 : (er : Int) * 1000000 ≤ (eN : Int) * (c.delayed_write_rate_ : Int) := by
            exact_mod_cast hee
          have hrm2 : (rf : Int) * 1000000 ≤ (c.delayed_write_rate_ : Int) * 1024 := by
            exact_mod_cast hrm
          rw [Nat.cast_sub hsng]
          push_cast
          ring_nf
          nlinarith [hee2, hrm2, hR0]
        · rw [if_neg hsng]
          refine ⟨?_, rfl, rfl, rfl, le_max_right _ _⟩
          simp only [psi]
          have hq := Nat.div_add_mod (n * kMicrosPerSecond) c.delayed_write_rate_
          have hqm := Nat.mod_lt (n * kMicrosPerSecond) hR
          have htne : t ≠ 0 := by omega
          rw [if_neg (show ¬ t + n * kMicrosPerSecond / c.delayed_write_rate_ = 0 by
            simp [Nat.add_eq_zero, htne]), if_neg hL0]
          simp only [kMicrosPerSecond] at hq hqm ⊢
          generalize hge : t - c.last_refill_time_ = eN
          have heq : (eN : Int) = (t : Int) - (c.last_refill_time_ : Int) := by omega
          rw [← heq]
          generalize hgq : n * 1000000 / c.delayed_write_rate_ = qv at hq ⊢
          generalize hgm : n * 1000000 % c.delayed_write_rate_ = md at hq hqm
          have hq2 : (c.delayed_write_rate_ : Int) * qv + md = (n : Int) * 1000000 := by
            exact_mod_cast hq
          have hqm2 : (md : Int) < (c.delayed_write_rate_ : Int) := by exact_mod_cast hqm
          have hen0 : (0:Int) ≤ (eN : Int) * (c.delayed_write_rate_ : Int) :=
            mul_nonneg (Int.natCast_nonneg _) (Int.natCast_nonneg _)
          push_cast
          ring_nf
          nlinarith [hq2, hqm2, hR0, hen0]
    · have hdebt : c.last_refill_time_ = 0 ∨ t ≤ c.last_refill_time_ := by
        by_cases h0 : c.last_refill_time_ = 0
        · exact Or.inl h0
        · right
          by_contra hcon
          exact hC ⟨h0, by omega⟩
      rw [getDelay_debt_eval c t n hs hd hdebt hfast]
      by_cases hsingle :
          n ≤ c.bytes_left_ + c.delayed_write_rate_ * kMicrosPerRefill / kMicrosPerSecond
      · rw [if_pos hsingle]
        refine ⟨?_, rfl, rfl, rfl, le_max_right _ _⟩
        simp only [psi]
        have hrm := Nat.div_mul_le_self (c.delayed_write_rate_ * kMicrosPerRefill) kMicrosPerSecond
        rw [if_neg (show ¬ t + (kMicrosPerRefill + (c.last_refill_time_ - t)) = 0 by
          simp only [kMicrosPerRefill]
          omega)]
        simp only [kMicrosPerRefill, kMicrosPerSecond] at hsingle hrm ⊢
        generalize hgr : c.delayed_write_rate_ * 1024 / 1000000 = rf at hsingle hrm ⊢
        have hrm2 : (rf : Int) * 1000000 ≤ (c.delayed_write_rate_ : Int) * 1024 := by
          exact_mod_cast hrm
        rw [Nat.cast_sub hsingle]
        rcases hdebt with hL0 | hLt
        · rw [if_pos hL0, hL0]
          simp only [Nat.zero_sub, Nat.add_zero]
          push_cast
          ring_nf
          linarith [hrm2, hR0]
        · rw [if_neg (by omega : ¬ c.last_refill_time_ = 0)]
          push_cast [Nat.cast_sub hLt]
          ring_nf
          nlinarith [hrm2, hR0]
      · rw [if_neg hsingle]
        refine ⟨?_, rfl, rfl, rfl, le_max_right _ _⟩
        simp only [psi]
        have hq := Nat.div_add_mod (n * kMicrosPerSecond) c.delayed_write_rate_
        have hqm := Nat.mod_lt (n * kMicrosPerSecond) hR
        have htne : t ≠ 0 := by omega
        rw [if_neg (show ¬ t + (n * kMicrosPerSecond / c.delayed_write_rate_ +
            (c.last_refill_time_ - t)) = 0 by simp [Nat.add_eq_zero, htne])]
        simp only [kMicrosPerSecond] at hq hqm ⊢
        generalize hgq : n * 1000000 / c.delayed_write_rate_ = qv at hq ⊢
        generalize hgm : n * 1000000 % c.delayed_write_rate_ = md at hq hqm
        have hq2 : (c.delayed_write_rate_ : Int) * qv + md = (n : Int) * 1000000 := by
          exact_mod_cast hq
        have hqm2 : (md : Int) < (c.delayed_write_rate_ : Int) := by exact_mod_cast hqm
        rcases hdebt with hL0 | hLt
        · rw [if_pos hL0, hL0]
          simp only [Nat.zero_sub, Nat.add_zero]
          push_cast
          ring_nf
          nlinarith [hq2, hqm2, hR0]
        · rw [if_neg (by omega : ¬ c.last_refill_time_ = 0)]
          push_cast [Nat.cast_sub hLt]
          ring_nf
          nlinarith [hq2, hqm2, hR0]


/-- A window with a monotone call schedule has its start before its
end. -/
theorem monoBetween_le (lo hi : Nat) (l : List DelayCall) (h : monoBetween lo hi l) :
    lo ≤ hi := by
  induction l generalizing lo with
  | nil => exact h
  | cons a rest ih => exact le_trans h.1 (ih a.t h.2)

/-- Waiting from t to t' raises the potential by at most
(t' - t) * rate. -/
theorem psi_shift (c : WriteController) (t t' : Nat) (h : t ≤ t') :
    psi c t' ≤ psi c t + ((t' : Int) - (t : Int)) * c.delayed_write_rate_ := by
  simp only [psi]
  split
  · have : (0:Int) ≤ ((t' : Int) - t) * c.delayed_write_rate_ :=
      mul_nonneg (by omega) (Int.natCast_nonneg _)
    omega
  · have hring : ((t' : Int) - c.last_refill_time_) * c.delayed_write_rate_ =
        ((t : Int) - c.last_refill_time_) * c.delayed_write_rate_ +
          ((t' : Int) - t) * c.delayed_write_rate_ := by ring
    linarith

/-- GetDelay never changes the vote counts or the delay rate. -/
theorem getDelay_fields (c : WriteController) (t n : Nat) :
    (GetDelay c t n).2.total_stopped_ = c.total_stopped_ ∧
    (GetDelay c t n).2.total_delayed_ = c.total_delayed_ ∧
    (GetDelay c t n).2.delayed_write_rate_ = c.delayed_write_rate_ := by
  refine ⟨?_, ?_, ?_⟩ <;>
  · unfold GetDelay
    split_ifs <;> try rfl
    all_goals simp only []
    all_goals split_ifs <;> rfl

/-- A sequence of GetDelay calls never changes the vote counts or the
delay rate. -/
theorem runCalls_fields (calls : List DelayCall) : ∀ c : WriteController,
    (runCalls c calls).1.total_stopped_ = c.total_stopped_ ∧
    (runCalls c calls).1.total_delayed_ = c.total_delayed_ ∧
    (runCalls c calls).1.delayed_write_rate_ = c.delayed_write_rate_ := by
  induction calls with
  | nil => exact fun c => ⟨rfl, rfl, rfl⟩
  | cons a rest ih =>
    intro c
    obtain ⟨f1, f2, f3⟩ := getDelay_fields c a.t a.n
    obtain ⟨g1, g2, g3⟩ := ih (GetDelay c a.t a.n).2
    simp only [runCalls]
    exact ⟨g1.trans f1, g2.trans f2, g3.trans f3⟩

/-- Telescoped conservation law: over a monotone schedule of calls the
final potential is bounded by the initial one plus the elapsed window
time, minus 1000000 byte-microseconds per requested byte, plus one rate
quantum of slack per call; and the final refill clock stays below the
window end plus the total sleep. -/
theorem runCalls_psi (R T1 : Nat) (calls : List DelayCall) :
    ∀ (c : WriteController) (t0 : Nat),
      c.total_stopped_ = 0 → c.total_delayed_ ≠ 0 → c.delayed_write_rate_ = R →
      0 < R → 0 < t0 → monoBetween t0 T1 calls →
      psi (runCalls c calls).1 T1 ≤
          psi c t0 + ((T1 : Int) - (t0 : Int)) * R
            - ((runCalls c calls).2.2 : Int) * 1000000 + (calls.length : Int) * R ∧
      (runCalls c calls).1.last_refill_time_ ≤
        max c.last_refill_time_ (T1 + (runCalls c calls).2.1) := by
  induction calls with
  | nil =>
    intro c t0 hs hd hR hRpos ht0 hmono
    refine ⟨?_, le_max_left _ _⟩
    have hsh := psi_shift c t0 T1 hmono
    rw [hR] at hsh
    simp only [runCalls, List.length_nil]
    push_cast
    linarith
  | cons a rest ih =>
    intro c t0 hs hd hR hRpos ht0 hmono
    obtain ⟨h01, hmono2⟩ := hmono
    have hta : 0 < a.t := by omega
    have hat1 : a.t ≤ T1 := monoBetween_le a.t T1 rest hmono2
    obtain ⟨hpsi, hstop, hdel, hrate, hLb⟩ :=
      getDelay_psi_step c a.t a.n hs hd (by omega) hta
    obtain ⟨ih1, ih2⟩ := ih (GetDelay c a.t a.n).2 a.t (hstop.trans hs)
      (by rw [hdel]; exact hd) (hrate.trans hR) hRpos hta hmono2
    have hsh := psi_shift c t0 a.t h01
    rw [hR] at hsh
    rw [hR] at hpsi
    constructor
    · simp only [runCalls, List.length_cons]
      have hring1 : ((T1 : Int) - a.t) * R + ((a.t : Int) - t0) * R =
          ((T1 : Int) - t0) * R := by ring
      push_cast
      linarith
    · simp only [runCalls]
      refine le_trans ih2 (max_le (le_trans hLb (max_le (le_max_left _ _) ?_)) ?_)
      · refine le_trans ?_ (le_max_right _ _)
        omega
      · refine le_trans ?_ (le_max_right _ _)
        omega

/-- C9 amended: over any window that starts at a delay-token mint at
rate R and whose GetDelay calls happen at positive, nondecreasing clock
values inside the window, the total requested bytes N, total returned
sleep S, window width W = T1 - T0 and call count k satisfy
N * 1000000 <= R * (W + S + k); equivalently the total sleep is at least
(N / R) * 1000000 - W - k microseconds. Without subtracting the window
width W (and without anchoring the window at a bucket reset) the
original inequality is false, as the counterexample shows. -/
theorem rate_window_bound (c0 : WriteController) (R T0 T1 : Nat) (calls : List DelayCall)
    (hs : c0.total_stopped_ = 0) (hR : 0 < R) (hT0 : 0 < T0)
    (hmono : monoBetween T0 T1 calls) :
    (runCalls (GetDelayToken c0 R) calls).2.2 * 1000000 ≤
      R * ((T1 - T0) + (runCalls (GetDelayToken c0 R) calls).2.1 + calls.length) := by
  have hT01 : T0 ≤ T1 := monoBetween_le T0 T1 calls hmono
  have h2 : (GetDelayToken c0 R).total_delayed_ ≠ 0 := by
    simp [GetDelayToken]
  obtain ⟨hA, hB⟩ := runCalls_psi R T1 calls (GetDelayToken c0 R) T0 hs h2 rfl hR hT0 hmono
  have hpsi0 : psi (GetDelayToken c0 R) T0 = 0 := by simp [psi, GetDelayToken]
  rw [hpsi0] at hA
  have hL0 : (GetDelayToken c0 R).last_refill_time_ = 0 := rfl
  rw [hL0] at hB
  rw [Nat.zero_max] at hB
  have hendpsi : -(((runCalls (GetDelayToken c0 R) calls).2.1 : Int)) * R ≤
      psi (runCalls (GetDelayToken c0 R) calls).1 T1 := by
    simp only [psi]
    split
    · have h1 : (0:Int) ≤ ((runCalls (GetDelayToken c0 R) calls).1.bytes_left_ : Int) * 1000000 :=
        mul_nonneg (Int.natCast_nonneg _) (by omega)
      have h2 : (0:Int) ≤ ((runCalls (GetDelayToken c0 R) calls).2.1 : Int) * R :=
        mul_nonneg (Int.natCast_nonneg _) (Int.natCast_nonneg _)
      linarith
    · have h1 : (0:Int) ≤ ((runCalls (GetDelayToken c0 R) calls).1.bytes_left_ : Int) * 1000000 :=
        mul_nonneg (Int.natCast_nonneg _) (by omega)
      have h3 : -(((runCalls (GetDelayToken c0 R) calls).2.1 : Int)) ≤
          (T1 : Int) - (runCalls (GetDelayToken c0 R) calls).1.last_refill_time_ := by
        omega
      have h4 := mul_le_mul_of_nonneg_right h3 (Int.natCast_nonneg R)
      have h5 :
          ((runCalls (GetDelayToken c0 R) calls).1.delayed_write_rate_ : Int) = (R : Int) := by
        exact_mod_cast (runCalls_fields calls (GetDelayToken c0 R)).2.2
      rw [h5]
      linarith
  have hfin : ((runCalls (GetDelayToken c0 R) calls).2.2 : Int) * 1000000 ≤
      (R : Int) * (((T1 : Int) - T0) +
        (runCalls (GetDelayToken c0 R) calls).2.1 + calls.length) := by
    have hring : ((T1:Int) - T0) * R =
        (R:Int) * ((T1:Int) - T0) := by ring
    nlinarith [hA, hendpsi]
  zify [hT01]
  push_cast at hfin
  linarith

/-- C9 witness: the amended window bound instantiated at a one-call
window of width zero at the mint clock 6666, rate 10_000_000, requesting
20_000_000 bytes. -/
theorem rate_window_bound_witness :
    (WriteController.init 10000000).total_stopped_ = 0 ∧ 0 < 10000000 ∧ 0 < 6666 ∧
    monoBetween 6666 6666 [{ t := 6666, n := 20000000 }] ∧
    (runCalls (GetDelayToken (WriteController.init 10000000) 10000000)
        [{ t := 6666, n := 20000000 }]).2.2 * 1000000 ≤
      10000000 * ((6666 - 6666) +
        (runCalls (GetDelayToken (WriteController.init 10000000) 10000000)
          [{ t := 6666, n := 20000000 }]).2.1 +
        ([{ t := 6666, n := 20000000 }] : List DelayCall).length) :=
  ⟨rfl, by decide, by decide, by simp [monoBetween],
    rate_window_bound (WriteController.init 10000000) 10000000 6666 6666
      [{ t := 6666, n := 20000000 }] rfl (by decide) (by decide) (by simp [monoBetween])⟩
